import Mathlib

/-!
Verification development for `ch12/train_model.py`: a seq2seq training script
(data loading dispatch, epoch/batch training loop, BLEU aggregation, gradient
handling, checkpoint policy).  Numeric values (losses, BLEU scores, gradients,
parameters) are modelled over `ℚ`; the opaque network/optimizer computations
are parameters of the embedding.
-/

namespace TrainModel

/- Constants, from the top of train_model.py. -/

def DEFAULT_FILE : String := "data/OpenSubtitles/en/Crime/1994/60_101020_138057_pulp_fiction.xml.gz"

def DATA_DIR : String := "data/OpenSubtitles/en/"

def SAVES_DIR : String := "saves"

def BATCH_SIZE : ℕ := 32

def LEARNING_RATE : ℚ := 1 / 10000

def MAX_EPOCHES : ℕ := 1000

def MAX_TOKENS : ℕ := 10

def GRAD_CLIP : ℚ := 1 / 10

/- Command-line arguments (argparse): `--cornell` is `None` when absent,
   `--data` defaults to DEFAULT_FILE. -/

structure Args where
  cornell : Option String
  data : String
  cuda : Bool
  name : String
deriving DecidableEq, Repr

/- The three possible dialogue sources of `load_data`. -/

inductive DataSource where
  | cornellSrc (genre : String)
  | fileSrc (path : String)
  | dirSrc (path : String)
deriving DecidableEq, Repr

/-- Model of Python `str.endswith`, computed on the character list. -/
def pyEndsWith (s suffixStr : String) : Bool :=
  suffixStr.data.isSuffixOf s.data

/-- Model of Python `str.startswith`, computed on the character list. -/
def pyStartsWith (s prefixStr : String) : Bool :=
  prefixStr.data.isPrefixOf s.data

/-- Model of Python `os.path.join(a, b)` for the cases reachable here. -/
def osPathJoin (a b : String) : String :=
  if pyStartsWith b "/" then b
  else if a = "" then b
  else if pyEndsWith a "/" then a ++ b
  else a ++ "/" ++ b

/-- The source-selection logic of `load_data` (train_model.py lines 33-42):
`args.cornell is not None` wins (even for the empty string); otherwise a
`--data` value ending in ".xml.gz" selects that file, an empty `--data`
selects the whole default directory, and anything else selects the directory
`os.path.join(DATA_DIR, args.data)`. -/
def selectSource (args : Args) : DataSource :=
  match args.cornell with
  | some genre => DataSource.cornellSrc genre
  | none =>
    if pyEndsWith args.data ".xml.gz" then DataSource.fileSrc args.data
    else if args.data.length = 0 then DataSource.dirSrc DATA_DIR
    else DataSource.dirSrc (osPathJoin DATA_DIR args.data)

/- Dialogue data model (spec section 3). -/

structure Phrase where
  words : List String
deriving DecidableEq, Repr

abbrev Dialogue := List Phrase

abbrev PhrasePair := Phrase × Phrase

/-- Modelled from the spec: `subtitles.dialogues_to_pairs` is not among the
sources; per the spec a PhrasePair is an "(input Phrase, output Phrase) tuple
derived from consecutive dialogue turns, filtered to at most `MAX_TOKENS`
tokens each". -/
def dialoguePairs (maxTokens : ℕ) : List Phrase → List PhrasePair
  | p1 :: p2 :: rest =>
    (if p1.words.length ≤ maxTokens ∧ p2.words.length ≤ maxTokens
      then [(p1, p2)] else [])
      ++ dialoguePairs maxTokens (p2 :: rest)
  | _ => []

/-- Modelled from the spec: pairs are gathered over all dialogues. -/
def dialogues_to_pairs (dialogues : List Dialogue) (maxTokens : ℕ) : List PhrasePair :=
  (dialogues.map (dialoguePairs maxTokens)).flatten

/-- `load_data` (train_model.py lines 33-50): fetch the dialogues of the
selected source (file reading is abstracted by `fetch`), bail out (`none`,
the `sys.exit()` path) when the dialogue list is empty, otherwise convert to
phrase pairs.  Only the dialogue list is guarded, never the pair list. -/
def load_data (fetch : DataSource → List Dialogue) (args : Args) : Option (List PhrasePair) :=
  let dialogues := fetch (selectSource args)
  if dialogues.isEmpty then
    none
  else
    some (dialogues_to_pairs dialogues MAX_TOKENS)

/- Gradient handling (train_model.py lines 95-119).  The per-parameter
gradient state is modelled as a single rational (a 1-dimensional gradient
vector, whose norm is its absolute value).  Per batch the loop runs
`loss_v.backward()` (gradient ACCUMULATES: `g + c`), then
`clip_grad_norm(net.parameters(), GRAD_CLIP)` (in-place rescale when the norm
exceeds the bound), then `optimiser.step()` (parameters move, gradient kept).
Crucially there is no `zero_grad()` anywhere in the loop. -/

/-- In-place gradient clipping: rescale `g` so its norm is at most `maxNorm`
(identity when already within the bound). -/
def clip_grad_norm (maxNorm g : ℚ) : ℚ :=
  if |g| ≤ maxNorm then g else maxNorm * g / |g|

/-- The gradient actually applied by `optimiser.step()` at each successive
batch, given the per-batch backward contributions `cs` and the incoming
gradient state `g` (never reset between batches). -/
def gradTrace (maxNorm : ℚ) : ℚ → List ℚ → List ℚ
  | _, [] => []
  | g, c :: cs =>
    let gc := clip_grad_norm maxNorm (g + c)
    gc :: gradTrace maxNorm gc cs

/- ------------------------------------------------------------------ -/
/- Batching, epoch accumulators and the training loop.                 -/
/- ------------------------------------------------------------------ -/

/-- An encoded phrase pair: the input and output index sequences. -/
abbrev PairE := List ℕ × List ℕ

/-- Modelled from the spec: `data.encode_phrase_pairs` is not among the
sources; per the spec an EncodedBatch is the "batch converted to index
sequences (per-pair list of integer indices, including a start token)". -/
def encode_phrase_pairs (pairs : List PhrasePair) (embDict : String → ℕ)
    (startTok : ℕ) : List PairE :=
  pairs.map (fun p => (startTok :: p.1.words.map embDict, startTok :: p.2.words.map embDict))

/-- Fuel-guided chunking helper for `iterate_batches`. -/
def chunkGo {α : Type} (batchSize : ℕ) : ℕ → List α → List (List α)
  | _, [] => []
  | 0, l => [l]
  | fuel + 1, l => l.take batchSize :: chunkGo batchSize fuel (l.drop batchSize)

/-- Modelled from the spec: `data.iterate_batches` is not among the sources;
per the spec it "produces a lazy sequence of batches covering the whole
collection exactly once per call, preserving current shuffle order; the final
batch may be smaller than the configured size". -/
def iterate_batches {α : Type} (batchSize : ℕ) (l : List α) : List (List α) :=
  chunkGo batchSize l.length l

/-- The per-epoch accumulators of the inner loop (lines 97-119): the evolving
network state, the list of per-batch losses, and the BLEU sum/count.  All are
freshly initialised at the top of each epoch. -/
structure EpochAcc (σ : Type) where
  net : σ
  losses : List ℚ
  bleu_sum : ℚ
  bleu_count : ℕ

/-- The per-batch body of the training loop (lines 100-119): for each pair of
the batch accumulate its BLEU score (one count per pair) under the current
network state, then compute the batch loss, back-propagate / clip / step the
optimizer (all folded into `stepNet`), and append the batch loss.  The opaque
network computations are the parameters `pairBleu`, `batchLoss`, `stepNet`. -/
def runBatches {σ : Type} (pairBleu : σ → PairE → ℚ) (batchLoss : σ → List PairE → ℚ)
    (stepNet : σ → List PairE → σ) : σ → List (List PairE) → EpochAcc σ
  | st, [] => ⟨st, [], 0, 0⟩
  | st, b :: bs =>
    let contrib := (b.map (pairBleu st)).sum
    let l := batchLoss st b
    let rest := runBatches pairBleu batchLoss stepNet (stepNet st b) bs
    ⟨rest.net, l :: rest.losses, contrib + rest.bleu_sum, b.length + rest.bleu_count⟩

/-- One full epoch over `data` (already shuffled), batched at `BATCH_SIZE`. -/
def runEpoch {σ : Type} (pairBleu : σ → PairE → ℚ) (batchLoss : σ → List PairE → ℚ)
    (stepNet : σ → List PairE → σ) (st : σ) (data : List PairE) : EpochAcc σ :=
  runBatches pairBleu batchLoss stepNet st (iterate_batches BATCH_SIZE data)

/-- The epoch's reported mean BLEU, `bleu = bleu_sum / bleu_count` (line 121):
a ZeroDivisionError — hence `none` — when no pair was processed. -/
def epochBleu {σ : Type} (acc : EpochAcc σ) : Option ℚ :=
  if acc.bleu_count = 0 then none else some (acc.bleu_sum / acc.bleu_count)

/-- The epoch's reported mean loss, `np.mean(losses)` (line 122): undefined
(`none`) on an empty loss list. -/
def epochMeanLoss {σ : Type} (acc : EpochAcc σ) : Option ℚ :=
  if acc.losses.length = 0 then none else some (acc.losses.sum / acc.losses.length)

/-- Spec-side description (spec 4.4 step 6): the per-pair BLEU scores of the
epoch, one entry per processed pair in processing order, the network state
evolving batch by batch. -/
def specPairScores {σ : Type} (pairBleu : σ → PairE → ℚ)
    (stepNet : σ → List PairE → σ) : σ → List (List PairE) → List ℚ
  | _, [] => []
  | st, b :: bs => b.map (pairBleu st) ++ specPairScores pairBleu stepNet (stepNet st b) bs

/-- Spec-side description (spec 4.4 step 6): the per-batch losses of the
epoch, one entry per batch. -/
def specBatchLosses {σ : Type} (batchLoss : σ → List PairE → ℚ)
    (stepNet : σ → List PairE → σ) : σ → List (List PairE) → List ℚ
  | _, [] => []
  | st, b :: bs => batchLoss st b :: specBatchLosses batchLoss stepNet (stepNet st b) bs

/- ------------------------------------------------------------------ -/
/- Checkpoint policy (lines 126-130).                                  -/
/- ------------------------------------------------------------------ -/

/-- The run-wide checkpoint tracker: `best_bleu` (initially `None`) and the
list of checkpoint files written so far, each recorded as the
`(bleu, epoch)` pair embedded in its file name `pre_bleu_%.3f_%02d.dat`. -/
structure CkptState where
  best_bleu : Option ℚ
  saves : List (ℚ × ℕ)
deriving DecidableEq, Repr

/-- The end-of-epoch checkpoint logic (lines 126-130):
`if best_bleu is None or best_bleu < bleu:` then save (only
`if best_bleu is not None`) and update `best_bleu = bleu`. -/
def ckptStep (st : CkptState) (bleu : ℚ) (epoch : ℕ) : CkptState :=
  match st.best_bleu with
  | none => { st with best_bleu := some bleu }
  | some b =>
    if b < bleu then
      { best_bleu := some bleu, saves := st.saves ++ [(bleu, epoch)] }
    else st

/-- The checkpoint policy run over successive epoch mean-BLEU values,
starting at epoch index `e`. -/
def ckptGo : CkptState → ℕ → List ℚ → CkptState
  | st, _, [] => st
  | st, e, b :: bs => ckptGo (ckptStep st b e) (e + 1) bs

/-- The checkpoint policy over a whole run's epoch mean-BLEU sequence. -/
def ckptRun (bleus : List ℚ) : CkptState :=
  ckptGo ⟨none, []⟩ 0 bleus

/-- The running maximum: `bestAfter o l` is the best value after folding the
updates of `ckptStep` over `l` from initial best `o`. -/
def bestAfter : Option ℚ → List ℚ → Option ℚ
  | o, [] => o
  | none, b :: bs => bestAfter (some b) bs
  | some x, b :: bs => bestAfter (some (max x b)) bs

/- ------------------------------------------------------------------ -/
/- The outer loop and process-level behaviour.                         -/
/- ------------------------------------------------------------------ -/

/-- What one epoch contributes to the log stream. -/
structure EpochRecord where
  epoch : ℕ
  losses : List ℚ
  bleu_sum : ℚ
  bleu_count : ℕ
  bleu : ℚ

/-- Result of the `for epoch in range(MAX_EPOCHES)` loop. -/
structure RunResult (σ : Type) where
  records : List EpochRecord
  crashed : Bool
  ck : CkptState
  finalNet : σ

/-- The outer epoch loop (lines 95-130): per epoch, run the (already
shuffled, `orders e`) data through `runEpoch` with fresh accumulators,
compute `bleu = bleu_sum / bleu_count` (a ZeroDivisionError — `crashed` —
when no pair was processed), and apply the checkpoint step. -/
def runEpochs {σ : Type} (pairBleu : σ → PairE → ℚ) (batchLoss : σ → List PairE → ℚ)
    (stepNet : σ → List PairE → σ) (orders : ℕ → List PairE) :
    σ → CkptState → ℕ → ℕ → RunResult σ
  | st, ck, _, 0 => ⟨[], false, ck, st⟩
  | st, ck, e, n + 1 =>
    let acc := runEpoch pairBleu batchLoss stepNet st (orders e)
    if acc.bleu_count = 0 then
      ⟨[], true, ck, acc.net⟩
    else
      let bleu := acc.bleu_sum / acc.bleu_count
      let rest := runEpochs pairBleu batchLoss stepNet orders acc.net (ckptStep ck bleu e) (e + 1) n
      ⟨⟨e, acc.losses, acc.bleu_sum, acc.bleu_count, bleu⟩ :: rest.records,
        rest.crashed, rest.ck, rest.finalNet⟩

/-- Process-level outcome.  In CPython a bare `sys.exit()` (line 46) raises
`SystemExit(None)`, which terminates the process with exit status 0; an
uncaught exception (e.g. ZeroDivisionError) terminates with status 1. -/
structure RunOutcome where
  exitCode : ℕ
  errorLogged : Bool
  epochsCompleted : ℕ
  writerClosed : Bool
  crashed : Bool
deriving DecidableEq, Repr

/-- The `__main__` block (lines 53-131): load and encode the data (bailing
out via `log.error` + `sys.exit()` — exit status 0 — on an empty dialogue
set), run `MAX_EPOCHES` epochs, close the metrics writer on normal
completion.  `orders e train` is the data order of epoch `e` produced by
`random.shuffle`. -/
def mainRun {σ : Type} (pairBleu : σ → PairE → ℚ) (batchLoss : σ → List PairE → ℚ)
    (stepNet : σ → List PairE → σ) (orders : ℕ → List PairE → List PairE) (net0 : σ)
    (fetch : DataSource → List Dialogue) (embDict : String → ℕ) (startTok : ℕ)
    (args : Args) : RunOutcome :=
  match load_data fetch args with
  | none => ⟨0, true, 0, false, false⟩
  | some pairs =>
    let train := encode_phrase_pairs pairs embDict startTok
    let r := runEpochs pairBleu batchLoss stepNet (fun e => orders e train) net0
      ⟨none, []⟩ 0 MAX_EPOCHES
    if r.crashed then ⟨1, false, r.records.length, false, true⟩
    else ⟨0, false, r.records.length, true, false⟩

/- ------------------------------------------------------------------ -/
/- Embeddings, network parameters and the optimizer (lines 79-92).     -/
/- ------------------------------------------------------------------ -/

/-- `nn.Embedding` module state: lines 80-82 copy the loaded matrix into the
weights and set `embeddings.weight.requires_grad = False`. -/
structure EmbeddingModule where
  weight : List (List ℚ)
  requiresGrad : Bool
deriving DecidableEq, Repr

/-- Lines 80-82: initialise the embedding table and disable its gradient. -/
def initEmbeddings (emb : List (List ℚ)) : EmbeddingModule :=
  { weight := emb, requiresGrad := false }

/-- Modelled from the spec: `model.PhraseModel` is not among the sources;
per the spec it is the encoder/decoder network whose trainable parameters do
not include the external embedding table ("the embedding table is explicitly
excluded from training"). -/
structure PhraseModel where
  params : List ℚ
deriving DecidableEq, Repr

/-- The mutable training state: the separate embedding module and the net. -/
structure NetState where
  embeddings : EmbeddingModule
  net : PhraseModel
deriving DecidableEq, Repr

/-- The distinct parameter tensors an optimizer could be constructed over. -/
inductive ParamGroup where
  | netWeights
  | embWeight
deriving DecidableEq, Repr

/-- Torch optimizer model: Adam holds a learning rate and the parameter
groups it was constructed over; `optimiser.step()` mutates exactly those. -/
structure Adam where
  lr : ℚ
  groups : List ParamGroup
deriving DecidableEq, Repr

/-- Line 92: `optim.Adam(net.parameters(), lr=LEARNING_RATE)` — constructed
over the network's parameters only. -/
def optimiser : Adam :=
  { lr := LEARNING_RATE, groups := [ParamGroup.netWeights] }

/-- Apply an abstract parameter update to one parameter group. -/
def applyToGroup (upd : List ℚ → List ℚ) (g : ParamGroup) (st : NetState) : NetState :=
  match g with
  | ParamGroup.netWeights => { st with net := { params := upd st.net.params } }
  | ParamGroup.embWeight =>
    { st with embeddings := { st.embeddings with weight := st.embeddings.weight.map upd } }

/-- `optimiser.step()`: one update over exactly the optimizer's groups. -/
def optStep (upd : List ℚ → List ℚ) (opt : Adam) (st : NetState) : NetState :=
  opt.groups.foldl (fun s g => applyToGroup upd g s) st

/-- A whole run's optimizer steps (one per batch), each with an arbitrary
Adam-computed update. -/
def runSteps (upds : List (List ℚ → List ℚ)) (st : NetState) : NetState :=
  upds.foldl (fun s u => optStep u optimiser s) st

/- ------------------------------------------------------------------ -/
/- Per-pair teacher forcing, targets, and BLEU references (104-111).   -/
/- ------------------------------------------------------------------ -/

abbrev EmbVec := List ℚ

/-- Modelled from the spec: `model.pack_batch` is not among the sources; per
the spec it converts the batch to index sequences including the start token,
providing the embedded output sequences (`out_seq_list`) consumed by the
teacher-forced decoder and the raw index sequences (`out_idx`). -/
structure PackedBatch where
  input_seq : List (List EmbVec)
  out_seq_list : List (List EmbVec)
  out_idx : List (List ℕ)

/-- Modelled from the spec: see `PackedBatch`. -/
def pack_batch (embFn : ℕ → EmbVec) (batch : List PairE) : PackedBatch :=
  { input_seq := batch.map (fun p => p.1.map embFn)
  , out_seq_list := batch.map (fun p => p.2.map embFn)
  , out_idx := batch.map Prod.snd }

/-- What the per-pair inner loop (lines 104-111) feeds where: for each pair
`idx`, `decode_teacher` consumes the full embedded output sequence
`out_seq_list[idx]`; `net_targets` is extended with `out_idx[idx][1:]`; and
`seq_bleu` scores against `out_idx[idx][1:]`. -/
structure TeacherStep where
  decodeInputs : List (List EmbVec)
  net_targets : List ℕ
  bleuRefs : List (List ℕ)

/-- The inner loop of lines 104-111 over one batch. -/
def batchTeacherStep (embFn : ℕ → EmbVec) (batch : List PairE) : TeacherStep :=
  let pb := pack_batch embFn batch
  { decodeInputs := pb.out_seq_list
  , net_targets := (pb.out_idx.map (fun l => l.drop 1)).flatten
  , bleuRefs := pb.out_idx.map (fun l => l.drop 1) }

/- ------------------------------------------------------------------ -/
/- Concrete inputs used by counterexamples and witnesses.              -/
/- ------------------------------------------------------------------ -/

/-- A fetch whose selected source yields no dialogues at all. -/
def fetchEmptyD : DataSource → List Dialogue := fun _ => []

/-- A dialogue whose second phrase has 11 tokens, exceeding `MAX_TOKENS`:
the dialogue set is non-empty but every phrase pair is filtered out. -/
def longDialogue : Dialogue :=
  [⟨["a"]⟩, ⟨["w", "w", "w", "w", "w", "w", "w", "w", "w", "w", "w"]⟩]

/-- A fetch returning only `longDialogue`. -/
def fetchLongD : DataSource → List Dialogue := fun _ => [longDialogue]

/-- A fetch returning one dialogue producing exactly one retained pair. -/
def fetchOneD : DataSource → List Dialogue := fun _ => [[⟨["a"]⟩, ⟨["b"]⟩]]

/-- The default argparse configuration (a required run name, no flags). -/
def argsDefault : Args :=
  { cornell := none, data := DEFAULT_FILE, cuda := false, name := "r" }

/-- A one-pair corpus used to exercise the teacher-forcing step. -/
def pairsW : List PhrasePair := [(⟨["a"]⟩, ⟨["b", "c"]⟩)]

/-- A tiny concrete vocabulary for `pairsW`. -/
def embDictW : String → ℕ :=
  fun w => if w = "b" then 2 else if w = "c" then 3 else 1

/-- A tiny concrete embedding lookup. -/
def embFnW : ℕ → EmbVec := fun n => [(n : ℚ)]

/- ------------------------------------------------------------------ -/
/- Theorems.                                                           -/
/- ------------------------------------------------------------------ -/

lemma gradTrace_cons_of_le (maxNorm g c : ℚ) (cs : List ℚ) (h : |g + c| ≤ maxNorm) :
    gradTrace maxNorm g (c :: cs) = (g + c) :: gradTrace maxNorm (g + c) cs := by
  simp [gradTrace, clip_grad_norm, h]

lemma gradTrace_eq_sums (maxNorm : ℚ) (cs : List ℚ) :
    ∀ g : ℚ, (∀ k, k ≤ cs.length → |g + (cs.take k).sum| ≤ maxNorm) →
      ∀ k, k < cs.length → (gradTrace maxNorm g cs).getD k 0 = g + (cs.take (k + 1)).sum := by
  induction cs with
  | nil => intro g _ k hk; exact absurd hk (by simp)
  | cons c cs ih =>
    intro g hb k hk
    have hgc : |g + c| ≤ maxNorm := by
      have := hb 1 (by simp)
      simpa using this
    rw [gradTrace_cons_of_le maxNorm g c cs hgc]
    cases k with
    | zero => simp
    | succ k =>
      have hb' : ∀ m, m ≤ cs.length → |g + c + (cs.take m).sum| ≤ maxNorm := by
        intro m hm
        have := hb (m + 1) (by simpa using Nat.succ_le_succ hm)
        simpa [List.take, add_assoc] using this
      have hk' : k < cs.length := by simpa using Nat.lt_of_succ_lt_succ hk
      have := ih (g + c) hb' k hk'
      simpa [List.take, add_assoc] using this

/-- Claim C2: the training loop never zeroes the parameter gradients between
batches, so (whenever the clip bound never forces a rescale) the gradient
clipped and applied at the optimizer step for batch `k` is the SUM of the
backward contributions of every batch since the start of the run, not the
current batch's contribution alone. -/
theorem claimC2 (cs : List ℚ)
    (hb : ∀ k, k ≤ cs.length → |(cs.take k).sum| ≤ GRAD_CLIP) :
    ∀ k, k < cs.length →
      (gradTrace GRAD_CLIP 0 cs).getD k 0 = (cs.take (k + 1)).sum := by
  intro k hk
  have hb' : ∀ m, m ≤ cs.length → |(0 : ℚ) + (cs.take m).sum| ≤ GRAD_CLIP := by
    intro m hm; simpa using hb m hm
  have := gradTrace_eq_sums GRAD_CLIP cs 0 hb' k hk
  simpa using this

theorem claimC2_witness :
    (gradTrace GRAD_CLIP 0 [1/20, 1/100]).getD 1 0 = (([1/20, 1/100] : List ℚ).take 2).sum ∧
      (([1/20, 1/100] : List ℚ).take 2).sum ≠ (1/100 : ℚ) := by
  constructor
  · refine claimC2 [1/20, 1/100] ?_ 1 (by norm_num)
    intro k hk
    simp only [List.length_cons, List.length_nil] at hk
    interval_cases k <;>
      norm_num [GRAD_CLIP, List.take_succ_cons, abs_le]
  · norm_num

/-- Claim C5: corpus selection takes precedence (a `--cornell` value, even the
empty string, selects the Cornell corpus and `--data` is ignored); otherwise a
`--data` value ending in ".xml.gz" selects that single file, an empty `--data`
selects the whole default directory, and any other value selects the join of
the default directory with that value.  Dialogues are fetched from exactly the
one selected source. -/
lemma pyEndsWith_empty_xmlgz : pyEndsWith "" ".xml.gz" = false := rfl

lemma string_length_ne_zero {s : String} (h : s ≠ "") : s.length ≠ 0 := by
  intro h0
  apply h
  cases s with
  | mk l =>
    cases l with
    | nil => rfl
    | cons a as => simp [String.length] at h0

theorem claimC5 (args : Args) :
    (∀ g, args.cornell = some g → selectSource args = DataSource.cornellSrc g) ∧
    (args.cornell = none →
      (pyEndsWith args.data ".xml.gz" = true → selectSource args = DataSource.fileSrc args.data) ∧
      (args.data = "" → selectSource args = DataSource.dirSrc DATA_DIR) ∧
      (pyEndsWith args.data ".xml.gz" = false → args.data ≠ "" →
        selectSource args = DataSource.dirSrc (osPathJoin DATA_DIR args.data))) ∧
    (∀ f g : DataSource → List Dialogue,
      f (selectSource args) = g (selectSource args) → load_data f args = load_data g args) := by
  refine ⟨?_, ?_, ?_⟩
  · intro g hg
    simp [selectSource, hg]
  · intro hc
    refine ⟨?_, ?_, ?_⟩
    · intro hx
      simp [selectSource, hc, hx]
    · intro hd
      simp [selectSource, hc, hd, pyEndsWith_empty_xmlgz]
    · intro hx hd
      simp [selectSource, hc, hx, string_length_ne_zero hd]
  · intro f g hfg
    simp [load_data, hfg]

theorem claimC5_witness :
    selectSource { cornell := some "", data := DEFAULT_FILE, cuda := false, name := "r" } =
      DataSource.cornellSrc "" ∧
    selectSource { cornell := none, data := DEFAULT_FILE, cuda := false, name := "r" } =
      DataSource.fileSrc DEFAULT_FILE := by
  constructor
  · exact (claimC5 { cornell := some "", data := DEFAULT_FILE, cuda := false, name := "r" }).1 "" rfl
  · exact ((claimC5 { cornell := none, data := DEFAULT_FILE, cuda := false, name := "r" }).2.1
      rfl).1 rfl

lemma chunkGo_flatten {α : Type} (batchSize : ℕ) (hbs : 0 < batchSize) :
    ∀ (fuel : ℕ) (l : List α), l.length ≤ fuel → (chunkGo batchSize fuel l).flatten = l := by
  intro fuel
  induction fuel with
  | zero =>
    intro l hl
    have hnil : l = [] := List.eq_nil_of_length_eq_zero (Nat.le_zero.mp hl)
    subst hnil
    rfl
  | succ fuel ih =>
    intro l hl
    cases l with
    | nil => rfl
    | cons x xs =>
      have hstep : chunkGo batchSize (fuel + 1) (x :: xs) =
          (x :: xs).take batchSize :: chunkGo batchSize fuel ((x :: xs).drop batchSize) := rfl
      rw [hstep, List.flatten_cons, ih ((x :: xs).drop batchSize) ?_, List.take_append_drop]
      have hlen : (x :: xs).length ≤ fuel + 1 := hl
      rw [List.length_drop]
      simp only [List.length_cons] at hlen ⊢
      omega

lemma iterate_batches_flatten {α : Type} (batchSize : ℕ) (hbs : 0 < batchSize)
    (l : List α) : (iterate_batches batchSize l).flatten = l :=
  chunkGo_flatten batchSize hbs l.length l le_rfl

lemma iterate_batches_ne_nil {α : Type} (batchSize : ℕ) (l : List α) (hl : l ≠ []) :
    iterate_batches batchSize l ≠ [] := by
  cases l with
  | nil => exact absurd rfl hl
  | cons x xs =>
    have hstep : iterate_batches batchSize (x :: xs) =
        (x :: xs).take batchSize :: chunkGo batchSize xs.length ((x :: xs).drop batchSize) := rfl
    rw [hstep]
    exact List.cons_ne_nil _ _

lemma runBatches_count {σ : Type} (pairBleu : σ → PairE → ℚ) (batchLoss : σ → List PairE → ℚ)
    (stepNet : σ → List PairE → σ) :
    ∀ (bs : List (List PairE)) (st : σ),
      (runBatches pairBleu batchLoss stepNet st bs).bleu_count = bs.flatten.length := by
  intro bs
  induction bs with
  | nil => intro st; rfl
  | cons b bs ih =>
    intro st
    simp [runBatches, ih]

lemma runBatches_sum {σ : Type} (pairBleu : σ → PairE → ℚ) (batchLoss : σ → List PairE → ℚ)
    (stepNet : σ → List PairE → σ) :
    ∀ (bs : List (List PairE)) (st : σ),
      (runBatches pairBleu batchLoss stepNet st bs).bleu_sum =
        (specPairScores pairBleu stepNet st bs).sum := by
  intro bs
  induction bs with
  | nil => intro st; rfl
  | cons b bs ih =>
    intro st
    simp [runBatches, specPairScores, ih]

lemma runBatches_losses {σ : Type} (pairBleu : σ → PairE → ℚ) (batchLoss : σ → List PairE → ℚ)
    (stepNet : σ → List PairE → σ) :
    ∀ (bs : List (List PairE)) (st : σ),
      (runBatches pairBleu batchLoss stepNet st bs).losses =
        specBatchLosses batchLoss stepNet st bs := by
  intro bs
  induction bs with
  | nil => intro st; rfl
  | cons b bs ih =>
    intro st
    simp [runBatches, specBatchLosses, ih]

lemma specPairScores_length {σ : Type} (pairBleu : σ → PairE → ℚ)
    (stepNet : σ → List PairE → σ) :
    ∀ (bs : List (List PairE)) (st : σ),
      (specPairScores pairBleu stepNet st bs).length = bs.flatten.length := by
  intro bs
  induction bs with
  | nil => intro st; rfl
  | cons b bs ih =>
    intro st
    simp [specPairScores, ih]

lemma specBatchLosses_length {σ : Type} (batchLoss : σ → List PairE → ℚ)
    (stepNet : σ → List PairE → σ) :
    ∀ (bs : List (List PairE)) (st : σ),
      (specBatchLosses batchLoss stepNet st bs).length = bs.length := by
  intro bs
  induction bs with
  | nil => intro st; rfl
  | cons b bs ih =>
    intro st
    simp [specBatchLosses, ih]

lemma BATCH_SIZE_pos : 0 < BATCH_SIZE := by norm_num [BATCH_SIZE]

lemma runEpoch_count {σ : Type} (pairBleu : σ → PairE → ℚ) (batchLoss : σ → List PairE → ℚ)
    (stepNet : σ → List PairE → σ) (st : σ) (data : List PairE) :
    (runEpoch pairBleu batchLoss stepNet st data).bleu_count = data.length := by
  rw [runEpoch, runBatches_count, iterate_batches_flatten BATCH_SIZE BATCH_SIZE_pos]

lemma runEpochs_record_count {σ : Type} (pairBleu : σ → PairE → ℚ)
    (batchLoss : σ → List PairE → ℚ) (stepNet : σ → List PairE → σ)
    (orders : ℕ → List PairE) :
    ∀ (n : ℕ) (st : σ) (ck : CkptState) (e : ℕ) (r : EpochRecord),
      r ∈ (runEpochs pairBleu batchLoss stepNet orders st ck e n).records →
      r.bleu_count = (orders r.epoch).length := by
  intro n
  induction n with
  | zero =>
    intro st ck e r hr
    simp [runEpochs] at hr
  | succ n ih =>
    intro st ck e r hr
    simp only [runEpochs] at hr
    by_cases hc : (runEpoch pairBleu batchLoss stepNet st (orders e)).bleu_count = 0
    · rw [if_pos hc] at hr
      simp at hr
    · rw [if_neg hc] at hr
      simp only [List.mem_cons] at hr
      rcases hr with hr | hr
      · subst hr
        exact runEpoch_count pairBleu batchLoss stepNet st (orders e)
      · exact ih _ _ _ r hr

/-- Claim C6: an epoch's reported mean BLEU is the sum of the per-pair BLEU
scores over every pair processed in the epoch divided by the number of pairs
processed (every pair contributes equally — it is not a mean of batch means),
the reported mean loss is the mean over the epoch's batch losses (one loss
per batch), and the accumulators restart at each epoch boundary (each epoch
record counts exactly its own epoch's pairs). -/
theorem claimC6 {σ : Type} (pairBleu : σ → PairE → ℚ) (batchLoss : σ → List PairE → ℚ)
    (stepNet : σ → List PairE → σ) (st : σ) (train : List PairE) (h : train ≠ []) :
    (runEpoch pairBleu batchLoss stepNet st train).losses =
      specBatchLosses batchLoss stepNet st (iterate_batches BATCH_SIZE train) ∧
    (runEpoch pairBleu batchLoss stepNet st train).bleu_sum =
      (specPairScores pairBleu stepNet st (iterate_batches BATCH_SIZE train)).sum ∧
    (specPairScores pairBleu stepNet st (iterate_batches BATCH_SIZE train)).length =
      train.length ∧
    (runEpoch pairBleu batchLoss stepNet st train).bleu_count = train.length ∧
    epochBleu (runEpoch pairBleu batchLoss stepNet st train) =
      some ((specPairScores pairBleu stepNet st (iterate_batches BATCH_SIZE train)).sum /
        (train.length : ℚ)) ∧
    (runEpoch pairBleu batchLoss stepNet st train).losses.length =
      (iterate_batches BATCH_SIZE train).length ∧
    epochMeanLoss (runEpoch pairBleu batchLoss stepNet st train) =
      some ((runEpoch pairBleu batchLoss stepNet st train).losses.sum /
        ((runEpoch pairBleu batchLoss stepNet st train).losses.length : ℚ)) ∧
    (∀ (orders : ℕ → List PairE) (st' : σ) (ck : CkptState) (e n : ℕ) (r : EpochRecord),
      r ∈ (runEpochs pairBleu batchLoss stepNet orders st' ck e n).records →
      r.bleu_count = (orders r.epoch).length) := by
  have hcnt := runEpoch_count pairBleu batchLoss stepNet st train
  have hlen0 : train.length ≠ 0 := by
    simpa [List.length_eq_zero] using h
  have hlosses := runBatches_losses pairBleu batchLoss stepNet (iterate_batches BATCH_SIZE train) st
  have hlosslen : (runEpoch pairBleu batchLoss stepNet st train).losses.length =
      (iterate_batches BATCH_SIZE train).length := by
    rw [runEpoch, hlosses, specBatchLosses_length]
  refine ⟨hlosses, runBatches_sum pairBleu batchLoss stepNet _ st, ?_, hcnt, ?_, hlosslen, ?_, ?_⟩
  · rw [specPairScores_length, iterate_batches_flatten BATCH_SIZE BATCH_SIZE_pos]
  · rw [epochBleu, if_neg (by rw [hcnt]; exact hlen0), hcnt,
      runEpoch, runBatches_sum]
  · have hbne : (iterate_batches BATCH_SIZE train).length ≠ 0 := by
      simpa [List.length_eq_zero] using iterate_batches_ne_nil BATCH_SIZE train h
    rw [epochMeanLoss, if_neg (by rw [hlosslen]; exact hbne)]
  · intro orders st' ck e n r hr
    exact runEpochs_record_count pairBleu batchLoss stepNet orders n st' ck e r hr

theorem claimC6_witness :
    (runEpoch (fun (_ : Unit) (p : PairE) => (p.2.length : ℚ)) (fun _ _ => 0) (fun u _ => u)
      () [([0], [0, 1]), ([1], [1, 2])]).bleu_count = 2 ∧
    epochBleu (runEpoch (fun (_ : Unit) (p : PairE) => (p.2.length : ℚ)) (fun _ _ => 0)
      (fun u _ => u) () [([0], [0, 1]), ([1], [1, 2])]) =
      some ((specPairScores (fun (_ : Unit) (p : PairE) => (p.2.length : ℚ)) (fun u _ => u) ()
        (iterate_batches BATCH_SIZE [([0], [0, 1]), ([1], [1, 2])])).sum / (2 : ℚ)) := by
  have hc := claimC6 (fun (_ : Unit) (p : PairE) => (p.2.length : ℚ)) (fun _ _ => 0)
    (fun u _ => u) () [([0], [0, 1]), ([1], [1, 2])] (by simp)
  refine ⟨hc.2.2.2.1, ?_⟩
  have := hc.2.2.2.2.1
  simpa using this

/-- Claim C4: the empty-input guard of `load_data` checks only the dialogue
set: a non-empty dialogue set all of whose pairs are discarded by the
MAX_TOKENS filter passes the guard with an empty pair set, the first epoch
then processes zero batches and zero pairs, and the epoch aggregation
`bleu = bleu_sum / bleu_count` divides by zero (`none`); the aggregation is
well-defined exactly when the training set is non-empty. -/
theorem claimC4 {σ : Type} (pairBleu : σ → PairE → ℚ) (batchLoss : σ → List PairE → ℚ)
    (stepNet : σ → List PairE → σ) (st : σ) (embDict : String → ℕ) (startTok : ℕ) :
    load_data fetchLongD argsDefault = some [] ∧
    encode_phrase_pairs [] embDict startTok = [] ∧
    iterate_batches BATCH_SIZE ([] : List PairE) = [] ∧
    (runEpoch pairBleu batchLoss stepNet st []).bleu_count = 0 ∧
    epochBleu (runEpoch pairBleu batchLoss stepNet st []) = none ∧
    (∀ train : List PairE,
      (epochBleu (runEpoch pairBleu batchLoss stepNet st train)).isSome ↔ train ≠ []) := by
  refine ⟨rfl, rfl, rfl, ?_, ?_, ?_⟩
  · exact runEpoch_count pairBleu batchLoss stepNet st []
  · rw [epochBleu, if_pos (show (runEpoch pairBleu batchLoss stepNet st []).bleu_count = 0 from
      runEpoch_count pairBleu batchLoss stepNet st [])]
  · intro train
    have hcnt := runEpoch_count pairBleu batchLoss stepNet st train
    rw [epochBleu]
    by_cases htr : train = []
    · subst htr
      simp [hcnt]
    · rw [if_neg (by rw [hcnt]; simpa [List.length_eq_zero] using htr)]
      simpa using htr

theorem claimC4_witness :
    load_data fetchLongD argsDefault = some [] ∧
    epochBleu (runEpoch (fun (_ : Unit) (_ : PairE) => (0 : ℚ)) (fun _ _ => 0)
      (fun u _ => u) () []) = none := by
  have hc := claimC4 (fun (_ : Unit) (_ : PairE) => (0 : ℚ)) (fun _ _ => 0)
    (fun u _ => u) () (fun _ => 0) 0
  exact ⟨hc.1, hc.2.2.2.2.1⟩

lemma runEpochs_no_crash {σ : Type} (pairBleu : σ → PairE → ℚ)
    (batchLoss : σ → List PairE → ℚ) (stepNet : σ → List PairE → σ)
    (orders : ℕ → List PairE) (hord : ∀ e, orders e ≠ []) :
    ∀ (n : ℕ) (st : σ) (ck : CkptState) (e : ℕ),
      (runEpochs pairBleu batchLoss stepNet orders st ck e n).crashed = false ∧
      (runEpochs pairBleu batchLoss stepNet orders st ck e n).records.length = n := by
  intro n
  induction n with
  | zero => intro st ck e; exact ⟨rfl, rfl⟩
  | succ n ih =>
    intro st ck e
    have hne : (runEpoch pairBleu batchLoss stepNet st (orders e)).bleu_count ≠ 0 := by
      rw [runEpoch_count]
      simpa [List.length_eq_zero] using hord e
    simp only [runEpochs]
    rw [if_neg hne]
    exact ⟨(ih _ _ _).1, by simp [(ih _ _ _).2]⟩

/-- Claim C10: the training loop runs for exactly `MAX_EPOCHES = 1000` epochs
and then terminates, for ANY loss/BLEU/optimizer behaviour (there is no
early-stopping condition), provided every epoch has data to process (the
degenerate empty-data case aborts by the division of C4, not by any stopping
rule). -/
theorem claimC10 {σ : Type} (pairBleu : σ → PairE → ℚ) (batchLoss : σ → List PairE → ℚ)
    (stepNet : σ → List PairE → σ) (orders : ℕ → List PairE) (net0 : σ)
    (hord : ∀ e, orders e ≠ []) :
    (runEpochs pairBleu batchLoss stepNet orders net0 ⟨none, []⟩ 0 MAX_EPOCHES).records.length =
      MAX_EPOCHES ∧
    (runEpochs pairBleu batchLoss stepNet orders net0 ⟨none, []⟩ 0 MAX_EPOCHES).crashed = false ∧
    MAX_EPOCHES = 1000 := by
  have hrun := runEpochs_no_crash pairBleu batchLoss stepNet orders hord MAX_EPOCHES net0
    ⟨none, []⟩ 0
  exact ⟨hrun.2, hrun.1, rfl⟩

theorem claimC10_witness :
    (runEpochs (fun (_ : Unit) (_ : PairE) => (0 : ℚ)) (fun _ _ => 0) (fun u _ => u)
      (fun _ => [([0], [0])]) () ⟨none, []⟩ 0 MAX_EPOCHES).records.length = MAX_EPOCHES :=
  (claimC10 (fun (_ : Unit) (_ : PairE) => (0 : ℚ)) (fun _ _ => 0) (fun u _ => u)
    (fun _ => [([0], [0])]) () (fun e => by simp)).1

lemma ckptGo_best : ∀ (bs : List ℚ) (st : CkptState) (e : ℕ),
    (ckptGo st e bs).best_bleu = bestAfter st.best_bleu bs := by
  intro bs
  induction bs with
  | nil =>
    intro st e
    simp [ckptGo, bestAfter]
  | cons b bs ih =>
    intro st e
    obtain ⟨o, s⟩ := st
    cases o with
    | none =>
      simp [ckptGo, ckptStep, ih, bestAfter]
    | some m =>
      by_cases hlt : m < b
      · simp [ckptGo, ckptStep, hlt, ih, bestAfter, max_eq_right hlt.le]
      · simp [ckptGo, ckptStep, hlt, ih, bestAfter, max_eq_left (le_of_not_lt hlt)]

lemma bestAfter_some_eq : ∀ (l : List ℚ) (x : ℚ),
    bestAfter (some x) l = some (l.foldl max x) := by
  intro l
  induction l with
  | nil => intro x; rfl
  | cons b bs ih =>
    intro x
    show bestAfter (some (max x b)) bs = some ((b :: bs).foldl max x)
    rw [ih, List.foldl_cons]

lemma seed_le_foldl_max : ∀ (l : List ℚ) (x : ℚ), x ≤ l.foldl max x := by
  intro l
  induction l with
  | nil => intro x; exact le_rfl
  | cons b bs ih =>
    intro x
    exact le_trans (le_max_left x b) (ih (max x b))

lemma foldl_max_mem : ∀ (l : List ℚ) (x : ℚ), l.foldl max x ∈ x :: l := by
  intro l
  induction l with
  | nil => intro x; simp
  | cons b bs ih =>
    intro x
    rw [List.foldl_cons]
    rcases List.mem_cons.mp (ih (max x b)) with h | h
    · rw [h]
      rcases max_choice x b with hm | hm
      · rw [hm]; exact List.mem_cons_self _ _
      · rw [hm]; exact List.mem_cons_of_mem _ (List.mem_cons_self _ _)
    · exact List.mem_cons_of_mem _ (List.mem_cons_of_mem _ h)

lemma mem_le_foldl_max : ∀ (l : List ℚ) (x a : ℚ), a ∈ l → a ≤ l.foldl max x := by
  intro l
  induction l with
  | nil => intro x a ha; simp at ha
  | cons b bs ih =>
    intro x a ha
    rw [List.foldl_cons]
    rcases List.mem_cons.mp ha with rfl | h
    · exact le_trans (le_max_right x a) (seed_le_foldl_max bs (max x a))
    · exact ih (max x b) a h

lemma bestAfter_none_some_iff (l : List ℚ) (x : ℚ) :
    bestAfter none l = some x ↔ (x ∈ l ∧ ∀ a ∈ l, a ≤ x) := by
  cases l with
  | nil => simp [bestAfter]
  | cons b bs =>
    rw [show bestAfter none (b :: bs) = bestAfter (some b) bs from rfl, bestAfter_some_eq]
    constructor
    · intro hx
      have hx' : bs.foldl max b = x := Option.some.inj hx
      rw [← hx']
      refine ⟨foldl_max_mem bs b, ?_⟩
      intro a ha
      rcases List.mem_cons.mp ha with h | h
      · exact h ▸ seed_le_foldl_max bs b
      · exact mem_le_foldl_max bs b a h
    · rintro ⟨hmem, hub⟩
      have h1 : x ≤ bs.foldl max b := by
        rcases List.mem_cons.mp hmem with h | h
        · exact h ▸ seed_le_foldl_max bs b
        · exact mem_le_foldl_max bs b x h
      have h2 : bs.foldl max b ≤ x := hub _ (foldl_max_mem bs b)
      exact congrArg some (le_antisymm h2 h1)

lemma bestAfter_none_none_iff (l : List ℚ) : bestAfter none l = none ↔ l = [] := by
  cases l with
  | nil => simp [bestAfter]
  | cons b bs =>
    rw [show bestAfter none (b :: bs) = bestAfter (some b) bs from rfl, bestAfter_some_eq]
    simp

lemma bestAfter_none_snoc_le (l : List ℚ) (b x : ℚ) (h : bestAfter none l = some x) :
    ∃ z, bestAfter none (l ++ [b]) = some z ∧ x ≤ z := by
  cases l with
  | nil => simp [bestAfter] at h
  | cons c cs =>
    have hx : cs.foldl max c = x := by
      rw [show bestAfter none (c :: cs) = bestAfter (some c) cs from rfl,
        bestAfter_some_eq] at h
      exact Option.some.inj h
    refine ⟨max (cs.foldl max c) b, ?_, ?_⟩
    · rw [show bestAfter none ((c :: cs) ++ [b]) = bestAfter (some c) (cs ++ [b]) from rfl,
        bestAfter_some_eq]
      simp [List.foldl_append]
    · rw [hx]; exact le_max_left _ _

lemma mem_take_iff_getD (l : List ℚ) (i : ℕ) (hi : i ≤ l.length) (a : ℚ) :
    a ∈ l.take i ↔ ∃ j, j < i ∧ l.getD j 0 = a := by
  constructor
  · intro ha
    rcases List.mem_iff_getElem.mp ha with ⟨j, hj, hja⟩
    have hlen : (l.take i).length = i := by
      rw [List.length_take]
      exact Nat.min_eq_left hi
    have hji : j < i := hlen ▸ hj
    refine ⟨j, hji, ?_⟩
    have h1 : (l.take i)[j]? = l[j]? := List.getElem?_take_of_lt hji
    have h2 : (l.take i)[j]? = some a := by
      rw [List.getElem?_eq_getElem hj, hja]
    rw [List.getD_eq_getElem?_getD, ← h1, h2]
    rfl
  · rintro ⟨j, hji, hja⟩
    have hjl : j < l.length := lt_of_lt_of_le hji hi
    apply List.mem_iff_getElem?.mpr
    refine ⟨j, ?_⟩
    rw [List.getElem?_take_of_lt hji, List.getElem?_eq_getElem hjl]
    rw [List.getD_eq_getElem?_getD, List.getElem?_eq_getElem hjl] at hja
    simpa using hja

lemma ckptGo_saves_mem :
    ∀ (bs : List ℚ) (o : Option ℚ) (s : List (ℚ × ℕ)) (e : ℕ) (v : ℚ) (i : ℕ),
      (v, i) ∈ (ckptGo ⟨o, s⟩ e bs).saves ↔
        ((v, i) ∈ s ∨ ∃ k, k < bs.length ∧ i = e + k ∧ v = bs.getD k 0 ∧
          ∃ x, bestAfter o (bs.take k) = some x ∧ x < v) := by
  intro bs
  induction bs with
  | nil =>
    intro o s e v i
    simp [ckptGo]
  | cons b bs ih =>
    intro o s e v i
    cases o with
    | none =>
      have hgo : ckptGo ⟨none, s⟩ e (b :: bs) = ckptGo ⟨some b, s⟩ (e + 1) bs := by
        simp [ckptGo, ckptStep]
      rw [hgo, ih (some b) s (e + 1) v i]
      constructor
      · rintro (hs | ⟨k, hk, hik, hvk, x, hbx, hxv⟩)
        · exact Or.inl hs
        · refine Or.inr ⟨k + 1, ?_, by omega, by simpa using hvk, x, ?_, hxv⟩
          · simpa using Nat.succ_lt_succ hk
          · simpa [bestAfter] using hbx
      · rintro (hs | ⟨k, hk, hik, hvk, x, hbx, hxv⟩)
        · exact Or.inl hs
        · cases k with
          | zero => simp [bestAfter] at hbx
          | succ k =>
            simp only [List.length_cons] at hk
            refine Or.inr ⟨k, Nat.lt_of_succ_lt_succ hk, by omega, by simpa using hvk,
              x, ?_, hxv⟩
            simpa [bestAfter] using hbx
    | some m =>
      by_cases hlt : m < b
      · have hgo : ckptGo ⟨some m, s⟩ e (b :: bs) =
            ckptGo ⟨some b, s ++ [(b, e)]⟩ (e + 1) bs := by
          simp [ckptGo, ckptStep, hlt]
        rw [hgo, ih (some b) (s ++ [(b, e)]) (e + 1) v i]
        constructor
        · rintro (hs | ⟨k, hk, hik, hvk, x, hbx, hxv⟩)
          · rcases List.mem_append.mp hs with hs | hs
            · exact Or.inl hs
            · have heq : v = b ∧ i = e := by simpa [Prod.ext_iff] using hs
              refine Or.inr ⟨0, by simp, by simpa using heq.2, by simpa using heq.1,
                m, by simp [bestAfter], by rw [heq.1]; exact hlt⟩
          · refine Or.inr ⟨k + 1, by simpa using Nat.succ_lt_succ hk, by omega,
              by simpa using hvk, x, ?_, hxv⟩
            simpa [bestAfter, max_eq_right hlt.le] using hbx
        · rintro (hs | ⟨k, hk, hik, hvk, x, hbx, hxv⟩)
          · exact Or.inl (List.mem_append.mpr (Or.inl hs))
          · cases k with
            | zero =>
              have hveq : v = b := by simpa using hvk
              have hieq : i = e := by simpa using hik
              exact Or.inl (List.mem_append.mpr (Or.inr (by simp [hveq, hieq])))
            | succ k =>
              simp only [List.length_cons] at hk
              refine Or.inr ⟨k, Nat.lt_of_succ_lt_succ hk, by omega, by simpa using hvk,
                x, ?_, hxv⟩
              simpa [bestAfter, max_eq_right hlt.le] using hbx
      · have hgo : ckptGo ⟨some m, s⟩ e (b :: bs) = ckptGo ⟨some m, s⟩ (e + 1) bs := by
          simp [ckptGo, ckptStep, hlt]
        rw [hgo, ih (some m) s (e + 1) v i]
        constructor
        · rintro (hs | ⟨k, hk, hik, hvk, x, hbx, hxv⟩)
          · exact Or.inl hs
          · refine Or.inr ⟨k + 1, by simpa using Nat.succ_lt_succ hk, by omega,
              by simpa using hvk, x, ?_, hxv⟩
            simpa [bestAfter, max_eq_left (le_of_not_lt hlt)] using hbx
        · rintro (hs | ⟨k, hk, hik, hvk, x, hbx, hxv⟩)
          · exact Or.inl hs
          · cases k with
            | zero =>
              have hx : x = m := by
                simp [bestAfter] at hbx
                exact hbx.symm
              have hveq : v = b := by simpa using hvk
              rw [hx, hveq] at hxv
              exact absurd hxv hlt
            | succ k =>
              simp only [List.length_cons] at hk
              refine Or.inr ⟨k, Nat.lt_of_succ_lt_succ hk, by omega, by simpa using hvk,
                x, ?_, hxv⟩
              simpa [bestAfter, max_eq_left (le_of_not_lt hlt)] using hbx

lemma bestAfter_take_lt (bleus : List ℚ) (i : ℕ) (v : ℚ) (hi : i < bleus.length)
    (hipos : 0 < i) (hv : v = bleus.getD i 0)
    (hmono : ∀ j, j < i → bleus.getD j 0 < bleus.getD i 0) :
    ∃ x, bestAfter none (bleus.take i) = some x ∧ x < v := by
  have hne : bleus.take i ≠ [] := by
    have hlen : (bleus.take i).length = i := by
      rw [List.length_take]
      exact Nat.min_eq_left (le_of_lt hi)
    intro h0
    rw [h0] at hlen
    simp at hlen
    omega
  obtain ⟨c, cs, hcc⟩ := List.exists_cons_of_ne_nil hne
  have hba : bestAfter none (bleus.take i) = some (cs.foldl max c) := by
    rw [hcc, show bestAfter none (c :: cs) = bestAfter (some c) cs from rfl,
      bestAfter_some_eq]
  refine ⟨cs.foldl max c, hba, ?_⟩
  have hmem : cs.foldl max c ∈ bleus.take i := by
    rw [hcc]
    exact foldl_max_mem cs c
  rw [mem_take_iff_getD bleus i (le_of_lt hi)] at hmem
  obtain ⟨j, hj, hjeq⟩ := hmem
  rw [← hjeq, hv]
  exact hmono j hj

lemma ckptRun_saves_mem (bleus : List ℚ) (v : ℚ) (i : ℕ) :
    (v, i) ∈ (ckptRun bleus).saves ↔
      (i < bleus.length ∧ v = bleus.getD i 0 ∧ 0 < i ∧
        ∀ j, j < i → bleus.getD j 0 < bleus.getD i 0) := by
  rw [ckptRun, ckptGo_saves_mem bleus none [] 0 v i]
  simp only [List.not_mem_nil, false_or]
  constructor
  · rintro ⟨k, hk, hik, hvk, x, hbx, hxv⟩
    have hik' : i = k := by omega
    subst hik'
    refine ⟨hk, hvk, ?_, ?_⟩
    · obtain ⟨hxmem, _⟩ := (bestAfter_none_some_iff _ x).mp hbx
      rcases Nat.eq_zero_or_pos i with h0 | h
      · subst h0
        simp at hxmem
      · exact h
    · intro j hj
      obtain ⟨_, hxub⟩ := (bestAfter_none_some_iff _ x).mp hbx
      have hjm : bleus.getD j 0 ∈ bleus.take i := by
        rw [mem_take_iff_getD bleus i (le_of_lt hk)]
        exact ⟨j, hj, rfl⟩
      rw [← hvk]
      exact lt_of_le_of_lt (hxub _ hjm) hxv
  · rintro ⟨hi, hv, hipos, hmono⟩
    obtain ⟨x, hba, hxv⟩ := bestAfter_take_lt bleus i v hi hipos hv hmono
    exact ⟨i, hi, by omega, hv, x, hba, hxv⟩

/-- Claim C1: a checkpoint is written at epoch `i` iff `i` is not the first
epoch and its mean BLEU strictly exceeds every prior epoch's mean BLEU
(equivalently: exceeds the already-set `best_bleu`); `best_bleu` after any
number of epochs is exactly the maximum mean BLEU seen so far (it is updated
whether or not a file was written, is `None` only before the first epoch,
and is non-decreasing). -/
theorem claimC1 (bleus : List ℚ) :
    (∀ v i, (v, i) ∈ (ckptRun bleus).saves ↔
      (i < bleus.length ∧ v = bleus.getD i 0 ∧ 0 < i ∧
        ∀ j, j < i → bleus.getD j 0 < bleus.getD i 0)) ∧
    (∀ x, (ckptRun bleus).best_bleu = some x ↔ (x ∈ bleus ∧ ∀ a ∈ bleus, a ≤ x)) ∧
    ((ckptRun bleus).best_bleu = none ↔ bleus = []) ∧
    (∀ k y, (ckptRun (bleus.take k)).best_bleu = some y →
      ∃ z, (ckptRun (bleus.take (k + 1))).best_bleu = some z ∧ y ≤ z) := by
  refine ⟨ckptRun_saves_mem bleus, ?_, ?_, ?_⟩
  · intro x
    rw [ckptRun, ckptGo_best]
    exact bestAfter_none_some_iff bleus x
  · rw [ckptRun, ckptGo_best]
    exact bestAfter_none_none_iff bleus
  · intro k y hy
    rw [ckptRun, ckptGo_best] at hy ⊢
    rw [List.take_succ]
    cases hget : bleus[k]? with
    | none => exact ⟨y, by simpa using hy, le_rfl⟩
    | some b => simpa using bestAfter_none_snoc_le (bleus.take k) b y hy

theorem claimC1_witness :
    (((3 : ℚ), 1) ∈ (ckptRun [2, 3]).saves) ∧
      ¬ (((2 : ℚ), 0) ∈ (ckptRun [2, 3]).saves) := by
  constructor
  · refine ((claimC1 [2, 3]).1 3 1).mpr ⟨by norm_num, by simp, by norm_num, ?_⟩
    intro j hj
    interval_cases j
    show ([2, 3] : List ℚ).getD 0 0 < ([2, 3] : List ℚ).getD 1 0
    simp only [List.getD_eq_getElem?_getD, List.getElem?_cons_zero,
      List.getElem?_cons_succ, Option.getD_some]
    norm_num
  · intro h
    have := ((claimC1 [2, 3]).1 2 0).mp h
    exact absurd this.2.2.1 (by norm_num)

/-- Claim C9: every checkpoint file written carries the CURRENT epoch's mean
BLEU and epoch index in its name (`pre_bleu_%.3f_%02d.dat % (bleu, epoch)`),
never the previous best value it displaced: the displaced best is strictly
smaller, hence different. -/
theorem claimC9 (bleus : List ℚ) (v : ℚ) (i : ℕ)
    (h : (v, i) ∈ (ckptRun bleus).saves) :
    v = bleus.getD i 0 ∧
      ∃ x, (ckptRun (bleus.take i)).best_bleu = some x ∧ x < v ∧ x ≠ v := by
  obtain ⟨hi, hv, hipos, hmono⟩ := (ckptRun_saves_mem bleus v i).mp h
  refine ⟨hv, ?_⟩
  obtain ⟨x, hba, hxv⟩ := bestAfter_take_lt bleus i v hi hipos hv hmono
  refine ⟨x, ?_, hxv, ne_of_lt hxv⟩
  rw [ckptRun, ckptGo_best]
  exact hba

theorem claimC9_witness :
    (2 : ℚ) = ([1, 2] : List ℚ).getD 1 0 ∧
      ∃ x, (ckptRun (([1, 2] : List ℚ).take 1)).best_bleu = some x ∧
        x < 2 ∧ x ≠ 2 := by
  apply claimC9 [1, 2] 2 1
  apply (ckptRun_saves_mem [1, 2] 2 1).mpr
  refine ⟨by norm_num, by simp, by norm_num, ?_⟩
  intro j hj
  interval_cases j
  show ([1, 2] : List ℚ).getD 0 0 < ([1, 2] : List ℚ).getD 1 0
  simp only [List.getD_eq_getElem?_getD, List.getElem?_cons_zero,
    List.getElem?_cons_succ, Option.getD_some]
  norm_num

/-- Claim C7: the embedding matrix is loaded once and never changes: its
gradient flag is disabled at initialisation and it is not among the
optimizer's parameter groups (Adam is constructed over `net.parameters()`
only, at learning rate 1e-4), so any number of per-batch optimizer steps
leaves every embedding row unchanged and mutates only the network's own
parameters. -/
theorem claimC7 (emb : List (List ℚ)) (net0 : PhraseModel)
    (upds : List (List ℚ → List ℚ)) :
    (initEmbeddings emb).requiresGrad = false ∧
    ParamGroup.embWeight ∉ optimiser.groups ∧
    optimiser.lr = LEARNING_RATE ∧
    (runSteps upds ⟨initEmbeddings emb, net0⟩).embeddings = initEmbeddings emb ∧
    (∀ (upd : List ℚ → List ℚ) (st : NetState),
      (optStep upd optimiser st).embeddings = st.embeddings ∧
      (optStep upd optimiser st).net.params = upd st.net.params) := by
  have hstep : ∀ (upd : List ℚ → List ℚ) (st : NetState),
      optStep upd optimiser st = ⟨st.embeddings, ⟨upd st.net.params⟩⟩ := by
    intro upd st
    rfl
  have hrun : ∀ (l : List (List ℚ → List ℚ)) (st : NetState),
      (runSteps l st).embeddings = st.embeddings := by
    intro l
    induction l with
    | nil => intro st; rfl
    | cons u us ih =>
      intro st
      show (runSteps us (optStep u optimiser st)).embeddings = st.embeddings
      rw [ih, hstep]
  refine ⟨rfl, by simp [optimiser], rfl, hrun upds _, ?_⟩
  intro upd st
  rw [hstep]
  exact ⟨rfl, rfl⟩

theorem claimC7_witness :
    (runSteps [fun l => l.map (fun q => q + 1)]
      ⟨initEmbeddings [[1, 2]], ⟨[5]⟩⟩).embeddings = initEmbeddings [[1, 2]] ∧
    ParamGroup.embWeight ∉ optimiser.groups :=
  ⟨(claimC7 [[1, 2]] ⟨[5]⟩ [fun l => l.map (fun q => q + 1)]).2.2.2.1,
    (claimC7 [[1, 2]] ⟨[5]⟩ [fun l => l.map (fun q => q + 1)]).2.1⟩

lemma getD_eq_getElem_of_lt {α : Type} (l : List α) (i : ℕ) (hi : i < l.length) (d : α) :
    l.getD i d = l.get ⟨i, hi⟩ := by
  rw [List.getD_eq_getElem?_getD, List.getElem?_eq_getElem hi]
  rfl

lemma getD_map_lt {α β : Type} (f : α → β) (l : List α) (i : ℕ) (hi : i < l.length)
    (d : α) (d' : β) : (l.map f).getD i d' = f (l.getD i d) := by
  rw [List.getD_eq_getElem?_getD, List.getD_eq_getElem?_getD, List.getElem?_map,
    List.getElem?_eq_getElem hi]
  rfl

/-- Claim C8: for every pair of every batch drawn from the encoded training
set, the cross-entropy target segment and the per-pair BLEU reference are
BOTH the pair's ground-truth output index sequence with the leading start
token excluded (`out_idx[idx][1:]`), while the teacher-forced decode consumes
the full embedded output sequence including the start token. -/
theorem claimC8 (embFn : ℕ → EmbVec) (embDict : String → ℕ) (startTok : ℕ)
    (pairs : List PhrasePair) (b : List PairE)
    (hb : b ∈ iterate_batches BATCH_SIZE (encode_phrase_pairs pairs embDict startTok))
    (i : ℕ) (hi : i < b.length) :
    (batchTeacherStep embFn b).bleuRefs.getD i [] = (b.getD i ([], [])).2.drop 1 ∧
    (batchTeacherStep embFn b).net_targets = (b.map (fun p => p.2.drop 1)).flatten ∧
    (batchTeacherStep embFn b).decodeInputs.getD i [] = (b.getD i ([], [])).2.map embFn ∧
    ∃ p ∈ pairs,
      b.getD i ([], []) =
        (startTok :: p.1.words.map embDict, startTok :: p.2.words.map embDict) ∧
      (b.getD i ([], [])).2.drop 1 = p.2.words.map embDict := by
  have hrefs : (batchTeacherStep embFn b).bleuRefs = b.map (fun p => p.2.drop 1) := by
    simp [batchTeacherStep, pack_batch, List.map_map]
  have hdec : (batchTeacherStep embFn b).decodeInputs = b.map (fun p => p.2.map embFn) := rfl
  have htgt : (batchTeacherStep embFn b).net_targets =
      (b.map (fun p => p.2.drop 1)).flatten := by
    simp [batchTeacherStep, pack_batch, List.map_map]
    rfl
  refine ⟨?_, htgt, ?_, ?_⟩
  · rw [hrefs, getD_map_lt _ b i hi ([], [])]
  · rw [hdec, getD_map_lt _ b i hi ([], [])]
  · have h0 : b.getD i ([], []) ∈ b := by
      rw [getD_eq_getElem_of_lt b i hi]
      exact List.get_mem b i hi
    have h1 : b.getD i ([], []) ∈
        (iterate_batches BATCH_SIZE (encode_phrase_pairs pairs embDict startTok)).flatten :=
      List.mem_flatten.mpr ⟨b, hb, h0⟩
    rw [iterate_batches_flatten BATCH_SIZE BATCH_SIZE_pos] at h1
    obtain ⟨p, hp, heq⟩ := List.mem_map.mp h1
    refine ⟨p, hp, ?_, ?_⟩
    · exact heq.symm
    · rw [← heq]
      simp

theorem claimC8_witness :
    (batchTeacherStep embFnW [([0, 1], [0, 2, 3])]).bleuRefs.getD 0 [] =
      (([0, 1], [0, 2, 3]) : PairE).2.drop 1 ∧
    (batchTeacherStep embFnW [([0, 1], [0, 2, 3])]).net_targets =
      (([([0, 1], [0, 2, 3])] : List PairE).map (fun p => p.2.drop 1)).flatten ∧
    (batchTeacherStep embFnW [([0, 1], [0, 2, 3])]).decodeInputs.getD 0 [] =
      (([([0, 1], [0, 2, 3])] : List PairE).getD 0 ([], [])).2.map embFnW ∧
    ∃ p ∈ pairsW,
      ([([0, 1], [0, 2, 3])] : List PairE).getD 0 ([], []) =
        (0 :: p.1.words.map embDictW, 0 :: p.2.words.map embDictW) ∧
      (([([0, 1], [0, 2, 3])] : List PairE).getD 0 ([], [])).2.drop 1 =
        p.2.words.map embDictW := by
  have hb : ([([0, 1], [0, 2, 3])] : List PairE) ∈
      iterate_batches BATCH_SIZE (encode_phrase_pairs pairsW embDictW 0) := by
    rw [show iterate_batches BATCH_SIZE (encode_phrase_pairs pairsW embDictW 0) =
      [[([0, 1], [0, 2, 3])]] from rfl]
    exact List.mem_singleton.mpr rfl
  exact claimC8 embFnW embDictW 0 pairsW [([0, 1], [0, 2, 3])] hb 0 (by norm_num)

/-- Claim C3 counterexample: on an empty dialogue set the process does log an
error and terminate before any training, but the termination is a bare
`sys.exit()`, i.e. exit status 0 — NOT a non-zero exit. -/
theorem claimC3_counterexample :
    (mainRun (fun (_ : Unit) (_ : PairE) => (0 : ℚ)) (fun _ _ => 0) (fun u _ => u)
      (fun _ l => l) () fetchEmptyD (fun _ => 0) 0 argsDefault).errorLogged = true ∧
    (mainRun (fun (_ : Unit) (_ : PairE) => (0 : ℚ)) (fun _ _ => 0) (fun u _ => u)
      (fun _ l => l) () fetchEmptyD (fun _ => 0) 0 argsDefault).epochsCompleted = 0 ∧
    (mainRun (fun (_ : Unit) (_ : PairE) => (0 : ℚ)) (fun _ _ => 0) (fun u _ => u)
      (fun _ l => l) () fetchEmptyD (fun _ => 0) 0 argsDefault).exitCode = 0 :=
  ⟨rfl, rfl, rfl⟩

/-- Claim C3 (amended): if the loaded dialogue set is empty, the process logs
an error and terminates immediately before any training — with exit status 0
(bare `sys.exit()` raises SystemExit(None)), not a non-zero status; otherwise,
provided the derived phrase-pair set is non-empty, it runs to epoch exhaustion
and exits 0 after closing the metrics stream; and the empty-dialogue case is
the only explicitly handled error path (an error is logged exactly then). -/
theorem claimC3 {σ : Type} (pairBleu : σ → PairE → ℚ) (batchLoss : σ → List PairE → ℚ)
    (stepNet : σ → List PairE → σ) (orders : ℕ → List PairE → List PairE) (net0 : σ)
    (fetch : DataSource → List Dialogue) (embDict : String → ℕ) (startTok : ℕ)
    (args : Args)
    (hlen : ∀ (e : ℕ) (l : List PairE), (orders e l).length = l.length) :
    (fetch (selectSource args) = [] →
      mainRun pairBleu batchLoss stepNet orders net0 fetch embDict startTok args =
        ⟨0, true, 0, false, false⟩) ∧
    (fetch (selectSource args) ≠ [] →
      dialogues_to_pairs (fetch (selectSource args)) MAX_TOKENS ≠ [] →
      mainRun pairBleu batchLoss stepNet orders net0 fetch embDict startTok args =
        ⟨0, false, MAX_EPOCHES, true, false⟩) ∧
    ((mainRun pairBleu batchLoss stepNet orders net0 fetch embDict startTok args).errorLogged
        = true ↔ fetch (selectSource args) = []) := by
  cases hF : fetch (selectSource args) with
  | nil =>
    have hmain : mainRun pairBleu batchLoss stepNet orders net0 fetch embDict startTok args =
        ⟨0, true, 0, false, false⟩ := by
      simp [mainRun, load_data, hF]
    refine ⟨fun _ => hmain, fun hne => absurd rfl hne, ?_⟩
    rw [hmain]
    simp
  | cons d ds =>
    have hld : load_data fetch args =
        some (dialogues_to_pairs (d :: ds) MAX_TOKENS) := by
      simp [load_data, hF]
    by_cases hp : dialogues_to_pairs (d :: ds) MAX_TOKENS = []
    · have herrF : (mainRun pairBleu batchLoss stepNet orders net0 fetch embDict startTok
          args).errorLogged = false := by
        simp only [mainRun, hld]
        by_cases hcr : (runEpochs pairBleu batchLoss stepNet
            (fun e => orders e (encode_phrase_pairs (dialogues_to_pairs (d :: ds) MAX_TOKENS)
              embDict startTok)) net0 ⟨none, []⟩ 0 MAX_EPOCHES).crashed = true
        · rw [if_pos hcr]
        · rw [if_neg hcr]
      refine ⟨fun h0 => absurd h0 (by simp), fun _ hp2 => absurd hp hp2, ?_⟩
      rw [herrF]
      simp
    · have htr : encode_phrase_pairs (dialogues_to_pairs (d :: ds) MAX_TOKENS)
          embDict startTok ≠ [] := by
        intro hmap
        exact hp (by simpa [encode_phrase_pairs] using hmap)
      have hord : ∀ e, orders e (encode_phrase_pairs (dialogues_to_pairs (d :: ds) MAX_TOKENS)
          embDict startTok) ≠ [] := by
        intro e h0
        have hl := hlen e (encode_phrase_pairs (dialogues_to_pairs (d :: ds) MAX_TOKENS)
          embDict startTok)
        rw [h0] at hl
        exact htr (List.length_eq_zero.mp hl.symm)
      obtain ⟨hcr, hlenr⟩ := runEpochs_no_crash pairBleu batchLoss stepNet _ hord
        MAX_EPOCHES net0 ⟨none, []⟩ 0
      have hmain : mainRun pairBleu batchLoss stepNet orders net0 fetch embDict startTok args =
          ⟨0, false, MAX_EPOCHES, true, false⟩ := by
        simp only [mainRun, hld]
        rw [if_neg (by rw [hcr]; simp)]
        rw [hlenr]
      refine ⟨fun h0 => absurd h0 (by simp), fun _ _ => hmain, ?_⟩
      rw [hmain]
      simp

theorem claimC3_witness :
    mainRun (fun (_ : Unit) (_ : PairE) => (0 : ℚ)) (fun _ _ => 0) (fun u _ => u)
      (fun _ l => l) () fetchOneD (fun _ => 0) 0 argsDefault =
      ⟨0, false, MAX_EPOCHES, true, false⟩ := by
  refine (claimC3 (fun (_ : Unit) (_ : PairE) => (0 : ℚ)) (fun _ _ => 0) (fun u _ => u)
    (fun _ l => l) () fetchOneD (fun _ => 0) 0 argsDefault (fun e l => rfl)).2.1 ?_ ?_
  · simp [fetchOneD]
  · rw [show dialogues_to_pairs (fetchOneD (selectSource argsDefault)) MAX_TOKENS =
      [(⟨["a"]⟩, ⟨["b"]⟩)] from rfl]
    simp

end TrainModel
